import Mathlib

/-!
Verification of the run-metadata reducer (`RunMetadataProvider`): the
log-to-state-machine reducer `extractMetadataFromLogs` and the persisted-stats
fallback `extractMetadataFromRun`, embedded from the TypeScript source.

Modelling conventions:
* timestamps are `Int` (the source parses the transport's millisecond string
  with `Number.parseInt`); persisted times are `ℚ` (fractional seconds);
* the JS object `metadata.steps` is modelled as a function
  `String → Option IStepMetadata` (only per-key reads and writes occur, and
  both the run-terminal forcing and the post-processing act on each step
  independently of object iteration order);
* JS truthiness on numbers (`0` is falsy) is modelled explicitly where the
  source relies on it (`!f.end`, `attempt.end`, `metadata.firstLogAt ?`,
  `ts ?`, `step.end || 0`);
* the field `end` is spelled `end_` (`end` is a Lean keyword);
* `IStepAttempt.start` is `Option Int`: the TS interface declares `number`,
  but `extractMetadataFromRun` stores `fromTimestamp(...)` there, which can
  be `undefined` (the cast `as IStepAttempt` hides this);
* the JS stable `transitions.sort((a, b) => a.time - b.time)` is modelled as
  `List.insertionSort` with `a.time ≤ b.time`, which is exactly the stable
  sort by time (ties keep arrival order).
-/

inductive IStepState where
  | PREPARING
  | RETRY_REQUESTED
  | RUNNING
  | SUCCEEDED
  | SKIPPED
  | FAILED
  | UNKNOWN
  deriving DecidableEq, Repr

def BOX_EXIT_STATES : List IStepState :=
  [IStepState.RETRY_REQUESTED, IStepState.SUCCEEDED, IStepState.FAILED, IStepState.UNKNOWN]

structure ITransition where
  state : IStepState
  time : Int
  deriving DecidableEq, Repr

structure IMarker where
  key : String
  start : Option Int := none
  end_ : Option Int := none
  deriving DecidableEq, Repr

structure IStepAttempt where
  start : Option Int
  end_ : Option Int := none
  exitState : Option IStepState := none
  deriving DecidableEq, Repr

structure IStepMetadata where
  state : IStepState
  start : Option Int
  end_ : Option Int
  transitions : List ITransition
  attempts : List IStepAttempt
  markers : List IMarker
  deriving DecidableEq, Repr

structure ILogCaptureInfo where
  fileKey : String
  stepKeys : List String
  pid : Option String := none
  externalUrl : Option String := none
  deriving DecidableEq, Repr

structure IRunMetadataDict where
  firstLogAt : Int
  mostRecentLogAt : Int
  startingProcessAt : Option Int := none
  startedProcessAt : Option Int := none
  startedPipelineAt : Option Int := none
  exitedAt : Option Int := none
  processId : Option Int := none
  globalMarkers : List IMarker
  steps : String → Option IStepMetadata
  logCaptureSteps : String → Option ILogCaptureInfo

def EMPTY_RUN_METADATA : IRunMetadataDict :=
  { firstLogAt := 0
    mostRecentLogAt := 0
    globalMarkers := []
    steps := fun _ => none
    logCaptureSteps := fun _ => none }

/-- The event kinds the reducer distinguishes (the GraphQL `__typename`s that
appear in the source; every other member of the union behaves like
`OtherEvent`). -/
inductive LogType where
  | RunStartEvent
  | RunFailureEvent
  | RunSuccessEvent
  | RunCanceledEvent
  | ExecutionStepStartEvent
  | ExecutionStepSuccessEvent
  | ExecutionStepSkippedEvent
  | ExecutionStepFailureEvent
  | ExecutionStepUpForRetryEvent
  | ExecutionStepRestartEvent
  | ObjectStoreOperationEvent (op : String)
  | LogsCapturedEvent (fileKey : String) (stepKeys : List String) (pid : Int)
      (externalUrl : Option String)
  | EngineEvent
  | ResourceInitFailureEvent
  | ResourceInitStartedEvent
  | ResourceInitSuccessEvent
  | StepWorkerStartedEvent
  | StepWorkerStartingEvent
  | OtherEvent
  deriving DecidableEq, Repr

/-- One element of `RunMetadataProviderMessageFragment[]`. `stepKey`,
`markerStart` and `markerEnd` are `none` when the JS value is falsy
(null / undefined / empty string). -/
structure LogMessage where
  typename : LogType
  timestamp : Int
  stepKey : Option String := none
  markerStart : Option String := none
  markerEnd : Option String := none
  deriving DecidableEq, Repr

/-- JS truthiness of an optional number: `undefined`/`null` and `0` are falsy. -/
def jsTruthy : Option Int → Bool
  | none => false
  | some v => v ≠ 0

def refineMarkerEvent (log : LogMessage) : Option LogMessage :=
  if log.typename = .EngineEvent ∨
      log.typename = .ResourceInitFailureEvent ∨
      log.typename = .ResourceInitStartedEvent ∨
      log.typename = .ResourceInitSuccessEvent ∨
      log.typename = .StepWorkerStartedEvent ∨
      log.typename = .StepWorkerStartingEvent then
    some log
  else
    none

/-- `set.find((f) => f.key === key && !f.end)` followed by a field update on
the found marker; when no open marker exists a fresh one is `unshift`ed to the
front and then updated. -/
def upsertMarkerGo (f : IMarker → IMarker) (key : String) :
    List IMarker → Option (List IMarker)
  | [] => none
  | m :: rest =>
    if m.key = key ∧ ¬ jsTruthy m.end_ then some (f m :: rest)
    else (upsertMarkerGo f key rest).map (fun l => m :: l)

def upsertMarker (set : List IMarker) (key : String) (f : IMarker → IMarker) :
    List IMarker :=
  match upsertMarkerGo f key set with
  | some s => s
  | none => f { key := key } :: set

def upsertState (step : IStepMetadata) (time : Int) (state : IStepState) :
    IStepMetadata :=
  { step with
    transitions := step.transitions ++ [{ state := state, time := time }]
    state := state
    attempts := [] }

/-- The step record lazily created on the first event naming a step key. -/
def newStep (timestamp : Int) : IStepMetadata :=
  { state := .PREPARING
    attempts := []
    transitions := [{ state := .PREPARING, time := timestamp }]
    start := none
    end_ := none
    markers := [] }

def updateTimes (m : IRunMetadataDict) (timestamp : Int) : IRunMetadataDict :=
  { m with
    firstLogAt := if m.firstLogAt ≠ 0 then min m.firstLogAt timestamp else timestamp
    mostRecentLogAt := max m.mostRecentLogAt timestamp }

def isRunTerminal : LogType → Bool
  | .RunFailureEvent => true
  | .RunSuccessEvent => true
  | .RunCanceledEvent => true
  | _ => false

def applyRunEvents (m : IRunMetadataDict) (log : LogMessage) : IRunMetadataDict :=
  let m :=
    if log.typename = .RunStartEvent then
      { m with startedPipelineAt := some log.timestamp }
    else m
  if isRunTerminal log.typename then
    { m with
      exitedAt := some log.timestamp
      steps := fun k =>
        (m.steps k).map fun step =>
          if step.state = .RUNNING then upsertState step log.timestamp .UNKNOWN
          else step }
  else m

def applyGlobalMarkers (m : IRunMetadataDict) (log : LogMessage) : IRunMetadataDict :=
  if log.stepKey = none then
    match refineMarkerEvent log with
    | none => m
    | some me =>
      let gm := m.globalMarkers
      let gm :=
        match me.markerStart with
        | some mk => upsertMarker gm mk (fun mr => { mr with start := some log.timestamp })
        | none => gm
      let gm :=
        match me.markerEnd with
        | some mk => upsertMarker gm mk (fun mr => { mr with end_ := some log.timestamp })
        | none => gm
      { m with globalMarkers := gm }
  else m

def applyLogCapture (m : IRunMetadataDict) (log : LogMessage) : IRunMetadataDict :=
  match log.typename with
  | .LogsCapturedEvent fileKey stepKeys pid externalUrl =>
    { m with
      logCaptureSteps := fun fk =>
        if fk = fileKey then
          some { fileKey := fileKey, stepKeys := stepKeys, pid := some (toString pid)
                 externalUrl := externalUrl }
        else m.logCaptureSteps fk }
  | _ => m

def applyMarkerToStep (log : LogMessage) (timestamp : Int) (step : IStepMetadata) :
    IStepMetadata :=
  match refineMarkerEvent log with
  | none => step
  | some me =>
    let ms := step.markers
    let ms :=
      match me.markerStart with
      | some mk => upsertMarker ms mk (fun mr => { mr with start := some timestamp })
      | none => ms
    let ms :=
      match me.markerEnd with
      | some mk => upsertMarker ms mk (fun mr => { mr with end_ := some timestamp })
      | none => ms
    { step with markers := ms }

def setStep (m : IRunMetadataDict) (key : String) (s : IStepMetadata) :
    IRunMetadataDict :=
  { m with steps := fun k => if k = key then some s else m.steps k }

/-- The `if (log.stepKey)` block: lazy step creation, step-scoped markers, the
per-kind state machine, and the `CP_OBJECT` early return (which skips the
store-back; since `ObjectStoreOperationEvent` is not marker-capable no other
mutation has happened to an existing step at that point). -/
def applyStepEvent (m : IRunMetadataDict) (log : LogMessage) : IRunMetadataDict :=
  match log.stepKey with
  | none => m
  | some stepKey =>
    let timestamp := log.timestamp
    let step := (m.steps stepKey).getD (newStep timestamp)
    let step := applyMarkerToStep log timestamp step
    match log.typename with
    | .ExecutionStepStartEvent =>
      setStep m stepKey { upsertState step timestamp .RUNNING with start := some timestamp }
    | .ExecutionStepSuccessEvent =>
      let step := upsertState step timestamp .SUCCEEDED
      setStep m stepKey { step with end_ := some (max timestamp (step.end_.getD 0)) }
    | .ExecutionStepSkippedEvent =>
      setStep m stepKey (upsertState step timestamp .SKIPPED)
    | .ExecutionStepFailureEvent =>
      let step := upsertState step timestamp .FAILED
      setStep m stepKey { step with end_ := some (max timestamp (step.end_.getD 0)) }
    | .ExecutionStepUpForRetryEvent =>
      setStep m stepKey
        (upsertState (upsertState step timestamp .RETRY_REQUESTED) (timestamp + 1) .PREPARING)
    | .ExecutionStepRestartEvent =>
      setStep m stepKey (upsertState step timestamp .RUNNING)
    | .ObjectStoreOperationEvent op =>
      if op = "CP_OBJECT" then m else setStep m stepKey step
    | _ => setStep m stepKey step

/-- The body of `logs.forEach((log) => ...)`. -/
def processLog (m : IRunMetadataDict) (log : LogMessage) : IRunMetadataDict :=
  applyStepEvent
    (applyLogCapture (applyGlobalMarkers (applyRunEvents (updateTimes m log.timestamp) log) log) log)
    log

def extractMetadataFromLogsRaw (logs : List LogMessage) : IRunMetadataDict :=
  logs.foldl processLog EMPTY_RUN_METADATA

def sortTransitions (l : List ITransition) : List ITransition :=
  List.insertionSort (fun a b => a.time ≤ b.time) l

/-- One iteration of the attempt-building loop. The pushed-but-still-mutable
last attempt is carried separately (`cur`); `done` holds the attempts that can
no longer be mutated. The JS condition `(!attempt || attempt.end)` treats an
attempt whose `end` is `0` as still open. -/
def canOpenAttempt : Option IStepAttempt → Bool
  | none => true
  | some a => jsTruthy a.end_

def attemptStep (acc : List IStepAttempt × Option IStepAttempt) (t : ITransition) :
    List IStepAttempt × Option IStepAttempt :=
  let acc :=
    if canOpenAttempt acc.2 && (t.state == IStepState.RUNNING) then
      (acc.1 ++ acc.2.toList, some { start := some t.time, end_ := none, exitState := none })
    else acc
  match acc.2 with
  | some a =>
    if BOX_EXIT_STATES.contains t.state then
      (acc.1, some { a with end_ := some t.time, exitState := some t.state })
    else acc
  | none => acc

def deriveAttempts (transitions : List ITransition) : List IStepAttempt :=
  let acc := transitions.foldl attemptStep ([], none)
  acc.1 ++ acc.2.toList

/-- The per-step post-processing: sort transitions by time, then build the
attempt boxes and push them onto the step's `attempts`. -/
def postProcessStep (step : IStepMetadata) : IStepMetadata :=
  let sorted := sortTransitions step.transitions
  { step with transitions := sorted, attempts := step.attempts ++ deriveAttempts sorted }

def extractMetadataFromLogs (logs : List LogMessage) : IRunMetadataDict :=
  let metadata := extractMetadataFromLogsRaw logs
  { metadata with steps := fun k => (metadata.steps k).map postProcessStep }

/-! ### Summary fallback (`extractMetadataFromRun`) -/

inductive StepEventStatus where
  | SUCCESS
  | FAILURE
  | SKIPPED
  | IN_PROGRESS
  deriving DecidableEq, Repr

structure StepStatAttempt where
  startTime : Option ℚ := none
  endTime : Option ℚ := none
  deriving DecidableEq, Repr

structure StepStatMarker where
  startTime : Option ℚ := none
  endTime : Option ℚ := none
  deriving DecidableEq, Repr

structure StepStat where
  stepKey : String
  status : Option StepEventStatus
  startTime : Option ℚ := none
  endTime : Option ℚ := none
  attempts : List StepStatAttempt := []
  markers : List StepStatMarker := []
  deriving DecidableEq, Repr

structure RunFragment where
  startTime : Option ℚ := none
  endTime : Option ℚ := none
  stepStats : List StepStat := []
  deriving DecidableEq, Repr

/-- `(ts) => (ts ? Math.floor(ts * 1000) : undefined)`: a missing or zero
time maps to `undefined`, otherwise seconds become floored milliseconds. -/
def fromTimestamp (ts : Option ℚ) : Option Int :=
  match ts with
  | none => none
  | some q => if q = 0 then none else some ⌊q * 1000⌋

/-- JS truthiness of an optional rational (for `if (run.startTime)`). -/
def jsTruthyQ : Option ℚ → Bool
  | none => false
  | some q => q ≠ 0

def stepStatusToStepState : Option StepEventStatus → IStepState
  | some .SUCCESS => .SUCCEEDED
  | some .FAILURE => .FAILED
  | some .SKIPPED => .SKIPPED
  | _ => .UNKNOWN

/-- The StepMetadata built from one persisted `stepStat` record. -/
def stepFromStat (stepStat : StepStat) : IStepMetadata :=
  { state := stepStatusToStepState stepStat.status
    start := fromTimestamp stepStat.startTime
    end_ := fromTimestamp stepStat.endTime
    transitions := []
    attempts :=
      stepStat.attempts.mapIdx fun idx attempt =>
        { start := fromTimestamp attempt.startTime
          end_ := fromTimestamp attempt.endTime
          exitState :=
            some
              (if idx = stepStat.attempts.length - 1 then
                stepStatusToStepState stepStat.status
              else IStepState.RETRY_REQUESTED) }
    markers :=
      stepStat.markers.mapIdx fun idx marker =>
        { key := "marker_" ++ toString idx
          start := fromTimestamp marker.startTime
          end_ := fromTimestamp marker.endTime } }

/-- `metadata.steps[stepStat.stepKey] = {...}` for one record. -/
def insertStat (steps : String → Option IStepMetadata) (stepStat : StepStat) :
    String → Option IStepMetadata :=
  fun k => if k = stepStat.stepKey then some (stepFromStat stepStat) else steps k

def extractMetadataFromRun (run : Option RunFragment) : IRunMetadataDict :=
  match run with
  | none => EMPTY_RUN_METADATA
  | some run =>
    let metadata := EMPTY_RUN_METADATA
    let metadata :=
      if jsTruthyQ run.startTime then
        { metadata with startedPipelineAt := fromTimestamp run.startTime }
      else metadata
    let metadata :=
      if jsTruthyQ run.endTime then
        { metadata with exitedAt := fromTimestamp run.endTime }
      else metadata
    { metadata with steps := run.stepStats.foldl insertStat metadata.steps }

/-! ### Concrete event constructors (used by counterexamples and witnesses) -/

def startMsg (k : String) (t : Int) : LogMessage :=
  { typename := .ExecutionStepStartEvent, timestamp := t, stepKey := some k }

def successMsg (k : String) (t : Int) : LogMessage :=
  { typename := .ExecutionStepSuccessEvent, timestamp := t, stepKey := some k }

def skippedMsg (k : String) (t : Int) : LogMessage :=
  { typename := .ExecutionStepSkippedEvent, timestamp := t, stepKey := some k }

def retryMsg (k : String) (t : Int) : LogMessage :=
  { typename := .ExecutionStepUpForRetryEvent, timestamp := t, stepKey := some k }

def cpObjectMsg (k : String) (t : Int) : LogMessage :=
  { typename := .ObjectStoreOperationEvent "CP_OBJECT", timestamp := t, stepKey := some k }

def otherMsg (t : Int) : LogMessage :=
  { typename := .OtherEvent, timestamp := t }

/-! ### C4: the two-event scenario -/

/-- Claim C4 counterexample: on `[start(stepA,@0), success(stepA,@10)]` the
resulting transitions are NOT `[RUNNING@0, SUCCEEDED@10]` — lazy step creation
prepends a synthetic `PREPARING@0`. -/
theorem C4_counterexample :
    ((extractMetadataFromLogs [startMsg "stepA" 0, successMsg "stepA" 10]).steps
        "stepA").map (fun s => s.transitions) ≠
      some [{ state := .RUNNING, time := 0 }, { state := .SUCCEEDED, time := 10 }] := by
  decide

/-- Claim C4 (amended): on `[start(stepA,@0), success(stepA,@10)]` the reducer
produces StepMetadata(stepA) with state SUCCEEDED, start 0, end 10, attempts
exactly `[{start 0, end 10, exitState SUCCEEDED}]`, and transitions exactly
`[PREPARING@0, RUNNING@0, SUCCEEDED@10]` (the initial PREPARING transition is
synthesized when the step record is first created). -/
theorem C4_two_event_scenario :
    (extractMetadataFromLogs [startMsg "stepA" 0, successMsg "stepA" 10]).steps "stepA" =
      some
        { state := .SUCCEEDED
          start := some 0
          end_ := some 10
          transitions :=
            [{ state := .PREPARING, time := 0 }, { state := .RUNNING, time := 0 },
              { state := .SUCCEEDED, time := 10 }]
          attempts := [{ start := some 0, end_ := some 10, exitState := some .SUCCEEDED }]
          markers := [] } := by
  decide

/-! ### C9: terminal transitions overwrite an already-closed attempt -/

/-- Claim C9: in attempt derivation, a transition into a terminal state
overwrites the end/exitState of the most recently opened attempt even when it
is already closed: a sorted transition list `RUNNING@t0, s1@t1, s2@t2` with
`s1, s2` terminal and `t0 < t1 < t2` yields exactly one attempt, ending at
`t2` with exit state `s2`. -/
theorem C9_terminal_overwrites_closed_attempt (t0 t1 t2 : Int) (s1 s2 : IStepState)
    (hs1 : s1 ∈ BOX_EXIT_STATES) (hs2 : s2 ∈ BOX_EXIT_STATES)
    (_h01 : t0 < t1) (_h12 : t1 < t2) :
    deriveAttempts
        [{ state := .RUNNING, time := t0 }, { state := s1, time := t1 },
          { state := s2, time := t2 }] =
      [{ start := some t0, end_ := some t2, exitState := some s2 }] := by
  have hbox : ∀ s, s ∈ BOX_EXIT_STATES →
      s = IStepState.RETRY_REQUESTED ∨ s = .SUCCEEDED ∨ s = .FAILED ∨ s = .UNKNOWN := by
    intro s hs
    simpa [BOX_EXIT_STATES] using hs
  rcases hbox s1 hs1 with h | h | h | h <;> subst h <;>
    rcases hbox s2 hs2 with h | h | h | h <;> subst h <;>
      simp [deriveAttempts, attemptStep, canOpenAttempt, jsTruthy, BOX_EXIT_STATES]

/-- Witness for C9 at `t0 = 1, t1 = 2, t2 = 3`, `s1 = RETRY_REQUESTED`,
`s2 = FAILED`. -/
theorem C9_terminal_overwrites_closed_attempt_witness :
    deriveAttempts
        [{ state := .RUNNING, time := 1 }, { state := .RETRY_REQUESTED, time := 2 },
          { state := .FAILED, time := 3 }] =
      [{ start := some 1, end_ := some 3, exitState := some .FAILED }] :=
  C9_terminal_overwrites_closed_attempt 1 2 3 .RETRY_REQUESTED .FAILED (by decide)
    (by decide) (by decide) (by decide)

/-! ### C5: retry synthesis -/

/-- Claim C5: processing a queued-for-retry event at time `T` for an existing
step appends exactly the two transitions `RETRY_REQUESTED@T` and
`PREPARING@(T+1)`, and in attempt derivation a `RETRY_REQUESTED` transition
scanned while the current attempt is open closes it with end `T` and exit
state `RETRY_REQUESTED`. -/
theorem C5_retry_synthesis (s : IRunMetadataDict) (k : String) (T : Int)
    (m : IStepMetadata) (hs : s.steps k = some m)
    (done : List IStepAttempt) (a : IStepAttempt) (ha : a.end_ = none) :
    (∃ m',
        (processLog s
              { typename := .ExecutionStepUpForRetryEvent, timestamp := T,
                stepKey := some k }).steps k = some m' ∧
          m'.transitions =
            m.transitions ++
              [{ state := .RETRY_REQUESTED, time := T }, { state := .PREPARING, time := T + 1 }]) ∧
      attemptStep (done, some a) { state := .RETRY_REQUESTED, time := T } =
        (done, some { a with end_ := some T, exitState := some .RETRY_REQUESTED }) := by
  constructor
  · have h1 :
        (processLog s
              { typename := .ExecutionStepUpForRetryEvent, timestamp := T,
                stepKey := some k }).steps k =
          some (upsertState (upsertState m T .RETRY_REQUESTED) (T + 1) .PREPARING) := by
      simp [processLog, updateTimes, applyRunEvents, isRunTerminal, applyGlobalMarkers,
        applyLogCapture, applyStepEvent, applyMarkerToStep, refineMarkerEvent, hs, setStep]
    exact ⟨_, h1, by simp [upsertState]⟩
  · simp [attemptStep, canOpenAttempt, jsTruthy, ha, BOX_EXIT_STATES]

/-- Witness for C5: a step that has started at time 0 receives a retry event
at time 5; an open attempt starting at 0 is closed at 5 with RETRY_REQUESTED. -/
theorem C5_retry_synthesis_witness :
    (∃ m',
        (processLog (extractMetadataFromLogsRaw [startMsg "A" 0])
              { typename := .ExecutionStepUpForRetryEvent, timestamp := 5,
                stepKey := some "A" }).steps "A" = some m' ∧
          m'.transitions =
            [{ state := .PREPARING, time := 0 }, { state := .RUNNING, time := 0 }] ++
              [{ state := .RETRY_REQUESTED, time := 5 },
                { state := .PREPARING, time := 5 + 1 }]) ∧
      attemptStep ([], some { start := some 0 }) { state := .RETRY_REQUESTED, time := 5 } =
        ([], some { start := some 0, end_ := some 5, exitState := some .RETRY_REQUESTED }) :=
  C5_retry_synthesis (extractMetadataFromLogsRaw [startMsg "A" 0]) "A" 5
    { state := .RUNNING, start := some 0, end_ := none,
      transitions := [{ state := .PREPARING, time := 0 }, { state := .RUNNING, time := 0 }],
      attempts := [], markers := [] }
    (by decide) [] { start := some 0 } rfl

/-! ### C1, C2, C3, C6: counterexamples from out-of-order / boundary inputs -/

/-- Claim C1 counterexample: `[start(stepA,@0), success(stepA,@10)]` and its
permutation `[success(stepA,@10), start(stepA,@0)]` give different time-sorted
transition lists for stepA (the synthetic PREPARING transition created with
the step record carries the timestamp of whichever event arrives first). -/
theorem C1_counterexample :
    List.Perm [startMsg "stepA" 0, successMsg "stepA" 10]
        [successMsg "stepA" 10, startMsg "stepA" 0] ∧
      ((extractMetadataFromLogs [startMsg "stepA" 0, successMsg "stepA" 10]).steps
            "stepA").map (fun s => s.transitions) ≠
        ((extractMetadataFromLogs [successMsg "stepA" 10, startMsg "stepA" 0]).steps
            "stepA").map (fun s => s.transitions) :=
  ⟨List.Perm.swap _ _ _, by decide⟩

/-- Claim C2 counterexample: events `[start(x,@10)]` extended by
`[success(x,@5)]` (a late-arriving, earlier-timestamped event). In the
extended model every transition of step x is at a timestamp ≤ 10, the
timestamp of the last event of the first batch, yet the step's state changes
from RUNNING to SUCCEEDED. -/
theorem C2_counterexample :
    ((extractMetadataFromLogs [startMsg "x" 10, successMsg "x" 5]).steps "x").map
        (fun s => s.transitions.all fun t => t.time ≤ 10) = some true ∧
      ((extractMetadataFromLogs [startMsg "x" 10]).steps "x").map (fun s => s.state) =
        some .RUNNING ∧
      ((extractMetadataFromLogs [startMsg "x" 10, successMsg "x" 5]).steps "x").map
          (fun s => s.state) = some .SUCCEEDED := by
  decide

/-- Claim C3 counterexample: with arrival order `[success(stepA,@10),
start(stepA,@0)]` the final state is RUNNING (the last event processed) while
the last element of the time-sorted transitions is SUCCEEDED@10. -/
theorem C3_counterexample :
    ((extractMetadataFromLogs [successMsg "stepA" 10, startMsg "stepA" 0]).steps
        "stepA").map (fun s => (s.state, s.transitions.getLast?)) =
      some (.RUNNING, some { state := .SUCCEEDED, time := 10 }) ∧
    IStepState.RUNNING ≠ IStepState.SUCCEEDED := by
  decide

/-- Claim C6 counterexample: for `[e@0, e@5]` the reducer reports
`firstLogAt = 5`, which is not the minimum timestamp (0): the min-tracking
treats an accumulated value of 0 as "unset". -/
theorem C6_counterexample :
    (extractMetadataFromLogs [otherMsg 0, otherMsg 5]).firstLogAt = 5 ∧
      ¬ ∀ e ∈ [otherMsg 0, otherMsg 5],
          (extractMetadataFromLogs [otherMsg 0, otherMsg 5]).firstLogAt ≤ e.timestamp := by
  decide

/-! ### C7 / C10: the summary fallback -/

theorem foldl_insertStat_not_mem (stats : List StepStat)
    (f : String → Option IStepMetadata) (k : String)
    (hk : k ∉ stats.map fun s => s.stepKey) :
    (stats.foldl insertStat f) k = f k := by
  induction stats generalizing f with
  | nil => rfl
  | cons s rest ih =>
    simp only [List.map_cons, List.mem_cons, not_or] at hk
    rw [List.foldl_cons, ih _ hk.2, insertStat, if_neg hk.1]

theorem foldl_insertStat_mem (stats : List StepStat) (f : String → Option IStepMetadata)
    (stat : StepStat) (hnd : (stats.map fun s => s.stepKey).Nodup)
    (hmem : stat ∈ stats) :
    (stats.foldl insertStat f) stat.stepKey = some (stepFromStat stat) := by
  induction stats generalizing f with
  | nil => cases hmem
  | cons s rest ih =>
    rw [List.map_cons, List.nodup_cons] at hnd
    rcases List.mem_cons.mp hmem with h | h
    · subst h
      rw [List.foldl_cons, foldl_insertStat_not_mem _ _ _ hnd.1, insertStat, if_pos rfl]
    · rw [List.foldl_cons]
      exact ih _ hnd.2 h

theorem extractMetadataFromRun_steps (run : RunFragment) (k : String) :
    (extractMetadataFromRun (some run)).steps k =
      (run.stepStats.foldl insertStat fun _ => none) k := by
  unfold extractMetadataFromRun
  dsimp only
  split <;> split <;> rfl

theorem get_mapIdx_some {α β : Type} (l : List α) (f : Nat → α → β) (i : Nat) (a : α)
    (h : l.get? i = some a) : (l.mapIdx f).get? i = some (f i a) := by
  rw [List.get?_eq_some] at h ⊢
  obtain ⟨hlt, hget⟩ := h
  have h2 : i < (l.mapIdx f).length := by simpa [List.length_mapIdx] using hlt
  exact ⟨h2, by rw [List.get_mapIdx l f i hlt, hget]⟩

/-- Claim C7: the summary fallback maps each persisted record to a step whose
state follows the fixed status table (SUCCESS→SUCCEEDED, FAILURE→FAILED,
SKIPPED→SKIPPED, anything else→UNKNOWN), copies the record's attempts in
order, marks the last attempt with the mapped terminal state and every
earlier attempt with RETRY_REQUESTED. -/
theorem C7_summary_fallback (run : RunFragment)
    (hnd : (run.stepStats.map fun s => s.stepKey).Nodup)
    (stat : StepStat) (hmem : stat ∈ run.stepStats) :
    (extractMetadataFromRun (some run)).steps stat.stepKey = some (stepFromStat stat) ∧
      (stepFromStat stat).state = stepStatusToStepState stat.status ∧
      stepStatusToStepState (some .SUCCESS) = .SUCCEEDED ∧
      stepStatusToStepState (some .FAILURE) = .FAILED ∧
      stepStatusToStepState (some .SKIPPED) = .SKIPPED ∧
      (∀ st : Option StepEventStatus,
        st ≠ some .SUCCESS → st ≠ some .FAILURE → st ≠ some .SKIPPED →
          stepStatusToStepState st = .UNKNOWN) ∧
      (stepFromStat stat).attempts.length = stat.attempts.length ∧
      ∀ i a, stat.attempts.get? i = some a →
        (stepFromStat stat).attempts.get? i =
          some
            { start := fromTimestamp a.startTime
              end_ := fromTimestamp a.endTime
              exitState :=
                some
                  (if i = stat.attempts.length - 1 then stepStatusToStepState stat.status
                  else IStepState.RETRY_REQUESTED) } := by
  refine ⟨?_, rfl, rfl, rfl, rfl, ?_, ?_, ?_⟩
  · rw [extractMetadataFromRun_steps]
    exact foldl_insertStat_mem _ _ _ hnd hmem
  · intro st h1 h2 h3
    match st with
    | none => rfl
    | some .SUCCESS => exact absurd rfl h1
    | some .FAILURE => exact absurd rfl h2
    | some .SKIPPED => exact absurd rfl h3
    | some .IN_PROGRESS => rfl
  · simp [stepFromStat, List.length_mapIdx]
  · intro i a h
    exact get_mapIdx_some _ _ _ _ h

/-- Witness for C7: a two-attempt FAILURE record (the spec's scenario), with
the final attempt mapped to FAILED and the first to RETRY_REQUESTED. -/
theorem C7_summary_fallback_witness :
    (extractMetadataFromRun
          (some
            { startTime := none, endTime := none
              stepStats :=
                [{ stepKey := "s1", status := some .FAILURE,
                    attempts := [{ startTime := some 1 }, { startTime := some 2 }] }] })).steps
        "s1" =
      some
        (stepFromStat
          { stepKey := "s1", status := some .FAILURE,
            attempts := [{ startTime := some 1 }, { startTime := some 2 }] }) ∧
    (stepFromStat
          { stepKey := "s1", status := some .FAILURE,
            attempts := [{ startTime := some 1 }, { startTime := some 2 }] }).attempts.map
        (fun a => a.exitState) =
      [some .RETRY_REQUESTED, some .FAILED] := by
  constructor
  · exact
      (C7_summary_fallback
          { startTime := none, endTime := none
            stepStats :=
              [{ stepKey := "s1", status := some .FAILURE,
                  attempts := [{ startTime := some 1 }, { startTime := some 2 }] }] }
          (by decide)
          { stepKey := "s1", status := some .FAILURE,
            attempts := [{ startTime := some 1 }, { startTime := some 2 }] }
          (List.mem_singleton.mpr rfl)).1
  · rfl

theorem fromTimestamp_of_falsy (ts : Option ℚ) (h : jsTruthyQ ts = false) :
    fromTimestamp ts = none := by
  match ts with
  | none => rfl
  | some q =>
    simp only [jsTruthyQ, decide_eq_false_iff_not, not_not] at h
    simp [fromTimestamp, h]

/-- Claim C10: every persisted time is converted by `floor(t * 1000)`, with 0
or null mapped to absent; this conversion is applied uniformly to the run's
started/exited times, step start/end, attempt start/end, and marker
start/end. -/
theorem C10_fromTimestamp_uniform :
    fromTimestamp none = none ∧
      fromTimestamp (some 0) = none ∧
      (∀ q : ℚ, q ≠ 0 → fromTimestamp (some q) = some ⌊q * 1000⌋) ∧
      (∀ run : RunFragment,
        (extractMetadataFromRun (some run)).startedPipelineAt = fromTimestamp run.startTime ∧
          (extractMetadataFromRun (some run)).exitedAt = fromTimestamp run.endTime) ∧
      ∀ stat : StepStat,
        (stepFromStat stat).start = fromTimestamp stat.startTime ∧
          (stepFromStat stat).end_ = fromTimestamp stat.endTime ∧
          (∀ i a, stat.attempts.get? i = some a →
            ((stepFromStat stat).attempts.get? i).map (fun x => (x.start, x.end_)) =
              some (fromTimestamp a.startTime, fromTimestamp a.endTime)) ∧
          ∀ i mk, stat.markers.get? i = some mk →
            ((stepFromStat stat).markers.get? i).map (fun x => (x.start, x.end_)) =
              some (fromTimestamp mk.startTime, fromTimestamp mk.endTime) := by
  refine ⟨rfl, by simp [fromTimestamp], fun q hq => by simp [fromTimestamp, hq], ?_, ?_⟩
  · intro run
    constructor <;>
      (unfold extractMetadataFromRun
       dsimp only
       rcases h1 : jsTruthyQ run.startTime <;> rcases h2 : jsTruthyQ run.endTime <;>
         simp [h1, h2, EMPTY_RUN_METADATA, fromTimestamp_of_falsy])
  · intro stat
    refine ⟨rfl, rfl, ?_, ?_⟩
    · intro i a h
      dsimp only [stepFromStat]
      rw [get_mapIdx_some _ _ _ _ h]
      rfl
    · intro i mk h
      dsimp only [stepFromStat]
      rw [get_mapIdx_some _ _ _ _ h]
      rfl

/-- A sample persisted record used by the C10 witness. -/
def sampleStat : StepStat :=
  { stepKey := "s"
    status := none
    attempts := [{ startTime := some (3 / 2), endTime := some 0 }] }

/-- Witness for C10: a fractional nonzero time (1.5 s) floors to 1500 ms, and
a concrete attempt's times are converted by `fromTimestamp`. -/
theorem C10_fromTimestamp_uniform_witness :
    ((3 : ℚ) / 2 ≠ 0 ∧ fromTimestamp (some ((3 : ℚ) / 2)) = some ⌊(3 : ℚ) / 2 * 1000⌋) ∧
      ((stepFromStat sampleStat).attempts.get? 0).map (fun x => (x.start, x.end_)) =
        some (fromTimestamp (some ((3 : ℚ) / 2)), fromTimestamp (some 0)) :=
  ⟨⟨by norm_num, C10_fromTimestamp_uniform.2.2.1 ((3 : ℚ) / 2) (by norm_num)⟩,
    (C10_fromTimestamp_uniform.2.2.2.2 sampleStat).2.2.1 0
      { startTime := some (3 / 2), endTime := some 0 } rfl⟩

/-! ### Infrastructure: the four post-update sections of `processLog` never
read, and commute with, the two running-time accumulators. -/

theorem applyRunEvents_setTimes (m : IRunMetadataDict) (log : LogMessage) (t1 t2 : Int) :
    applyRunEvents { m with firstLogAt := t1, mostRecentLogAt := t2 } log =
      { applyRunEvents m log with firstLogAt := t1, mostRecentLogAt := t2 } := by
  unfold applyRunEvents
  dsimp only
  split <;> split <;> rfl

theorem applyGlobalMarkers_setTimes (m : IRunMetadataDict) (log : LogMessage) (t1 t2 : Int) :
    applyGlobalMarkers { m with firstLogAt := t1, mostRecentLogAt := t2 } log =
      { applyGlobalMarkers m log with firstLogAt := t1, mostRecentLogAt := t2 } := by
  unfold applyGlobalMarkers
  dsimp only
  repeat' split
  all_goals rfl

theorem applyLogCapture_setTimes (m : IRunMetadataDict) (log : LogMessage) (t1 t2 : Int) :
    applyLogCapture { m with firstLogAt := t1, mostRecentLogAt := t2 } log =
      { applyLogCapture m log with firstLogAt := t1, mostRecentLogAt := t2 } := by
  unfold applyLogCapture
  split <;> rfl

theorem applyStepEvent_setTimes (m : IRunMetadataDict) (log : LogMessage) (t1 t2 : Int) :
    applyStepEvent { m with firstLogAt := t1, mostRecentLogAt := t2 } log =
      { applyStepEvent m log with firstLogAt := t1, mostRecentLogAt := t2 } := by
  unfold applyStepEvent
  dsimp only
  repeat' split
  all_goals rfl

theorem processLog_setTimes (m : IRunMetadataDict) (log : LogMessage) (t1 t2 : Int) :
    processLog { m with firstLogAt := t1, mostRecentLogAt := t2 } log =
      { processLog m log with
        firstLogAt := if t1 ≠ 0 then min t1 log.timestamp else log.timestamp
        mostRecentLogAt := max t2 log.timestamp } := by
  unfold processLog
  rw [show updateTimes { m with firstLogAt := t1, mostRecentLogAt := t2 } log.timestamp =
      { updateTimes m log.timestamp with
        firstLogAt := if t1 ≠ 0 then min t1 log.timestamp else log.timestamp
        mostRecentLogAt := max t2 log.timestamp } from rfl]
  rw [applyRunEvents_setTimes, applyGlobalMarkers_setTimes, applyLogCapture_setTimes,
    applyStepEvent_setTimes]

theorem foldl_processLog_setTimes (logs : List LogMessage) (m : IRunMetadataDict)
    (t1 t2 : Int) :
    ∃ g1 g2,
      logs.foldl processLog { m with firstLogAt := t1, mostRecentLogAt := t2 } =
        { logs.foldl processLog m with firstLogAt := g1, mostRecentLogAt := g2 } := by
  induction logs generalizing m t1 t2 with
  | nil => exact ⟨t1, t2, rfl⟩
  | cons e rest ih =>
    rw [List.foldl_cons, List.foldl_cons, processLog_setTimes]
    exact ih (processLog m e) _ _

/-- Processing a `CP_OBJECT` object-store event only advances the two time
accumulators: the early `return` skips the store-back, and since
`ObjectStoreOperationEvent` is not marker-capable no other field is touched. -/
theorem processLog_cpObject (m : IRunMetadataDict) (y : String) (t : Int) :
    processLog m (cpObjectMsg y t) =
      { m with
        firstLogAt := if m.firstLogAt ≠ 0 then min m.firstLogAt t else t
        mostRecentLogAt := max m.mostRecentLogAt t } :=
  rfl

/-- Claim C8: an object-copy-from-cache event for step y, inserted anywhere in
the event sequence, leaves the entire final steps mapping unchanged — in
particular step y's `start`, `end`, `state` and transitions are exactly as
they would be without it. -/
theorem C8_cache_copy_discard (l1 l2 : List LogMessage) (y : String) (t : Int)
    (k : String) :
    (extractMetadataFromLogs (l1 ++ cpObjectMsg y t :: l2)).steps k =
      (extractMetadataFromLogs (l1 ++ l2)).steps k := by
  unfold extractMetadataFromLogs extractMetadataFromLogsRaw
  rw [List.foldl_append, List.foldl_cons, List.foldl_append, processLog_cpObject]
  obtain ⟨g1, g2, hg⟩ :=
    foldl_processLog_setTimes l2 (l1.foldl processLog EMPTY_RUN_METADATA)
      (if (l1.foldl processLog EMPTY_RUN_METADATA).firstLogAt ≠ 0 then
        min (l1.foldl processLog EMPTY_RUN_METADATA).firstLogAt t
      else t)
      (max (l1.foldl processLog EMPTY_RUN_METADATA).mostRecentLogAt t)
  rw [hg]

theorem processLog_firstLogAt (m : IRunMetadataDict) (log : LogMessage) :
    (processLog m log).firstLogAt =
      if m.firstLogAt ≠ 0 then min m.firstLogAt log.timestamp else log.timestamp := by
  have h := processLog_setTimes m log m.firstLogAt m.mostRecentLogAt
  rw [show ({ m with firstLogAt := m.firstLogAt, mostRecentLogAt := m.mostRecentLogAt } :
      IRunMetadataDict) = m from rfl] at h
  rw [h]

theorem processLog_mostRecentLogAt (m : IRunMetadataDict) (log : LogMessage) :
    (processLog m log).mostRecentLogAt = max m.mostRecentLogAt log.timestamp := by
  have h := processLog_setTimes m log m.firstLogAt m.mostRecentLogAt
  rw [show ({ m with firstLogAt := m.firstLogAt, mostRecentLogAt := m.mostRecentLogAt } :
      IRunMetadataDict) = m from rfl] at h
  rw [h]

theorem foldl_firstLogAt_pos (logs : List LogMessage) (m : IRunMetadataDict)
    (hm : 0 < m.firstLogAt) (hl : ∀ e ∈ logs, 0 < e.timestamp) :
    (logs.foldl processLog m).firstLogAt =
      logs.foldl (fun acc e => min acc e.timestamp) m.firstLogAt := by
  induction logs generalizing m with
  | nil => rfl
  | cons e rest ih =>
    rw [List.foldl_cons, List.foldl_cons]
    have he : 0 < e.timestamp := hl e (List.mem_cons_self e rest)
    have h1 : (processLog m e).firstLogAt = min m.firstLogAt e.timestamp := by
      rw [processLog_firstLogAt, if_pos (by omega)]
    have h2 : 0 < (processLog m e).firstLogAt := by
      rw [h1]
      exact lt_min hm he
    rw [ih (processLog m e) h2 (fun e' he' => hl e' (List.mem_cons_of_mem _ he')), h1]

theorem foldl_mostRecentLogAt (logs : List LogMessage) (m : IRunMetadataDict) :
    (logs.foldl processLog m).mostRecentLogAt =
      logs.foldl (fun acc e => max acc e.timestamp) m.mostRecentLogAt := by
  induction logs generalizing m with
  | nil => rfl
  | cons e rest ih =>
    rw [List.foldl_cons, List.foldl_cons, ih (processLog m e), processLog_mostRecentLogAt]

theorem foldl_min_spec (l : List LogMessage) (a : Int) :
    ((l.foldl (fun acc e => min acc e.timestamp) a) = a ∨
        ∃ e ∈ l, (l.foldl (fun acc e => min acc e.timestamp) a) = e.timestamp) ∧
      (l.foldl (fun acc e => min acc e.timestamp) a) ≤ a ∧
      ∀ e ∈ l, (l.foldl (fun acc e => min acc e.timestamp) a) ≤ e.timestamp := by
  induction l generalizing a with
  | nil => exact ⟨Or.inl rfl, le_refl a, by simp⟩
  | cons e rest ih =>
    obtain ⟨hat, hle, hall⟩ := ih (min a e.timestamp)
    rw [List.foldl_cons]
    refine ⟨?_, hle.trans (min_le_left _ _), ?_⟩
    · rcases hat with h | ⟨e', he', h⟩
      · rcases min_cases a e.timestamp with ⟨hm, _⟩ | ⟨hm, _⟩
        · exact Or.inl (h.trans hm)
        · exact Or.inr ⟨e, List.mem_cons_self _ _, h.trans hm⟩
      · exact Or.inr ⟨e', List.mem_cons_of_mem _ he', h⟩
    · intro e' he'
      rcases List.mem_cons.mp he' with h | h
      · subst h
        exact hle.trans (min_le_right _ _)
      · exact hall e' h

theorem foldl_max_spec (l : List LogMessage) (a : Int) :
    ((l.foldl (fun acc e => max acc e.timestamp) a) = a ∨
        ∃ e ∈ l, (l.foldl (fun acc e => max acc e.timestamp) a) = e.timestamp) ∧
      a ≤ (l.foldl (fun acc e => max acc e.timestamp) a) ∧
      ∀ e ∈ l, e.timestamp ≤ (l.foldl (fun acc e => max acc e.timestamp) a) := by
  induction l generalizing a with
  | nil => exact ⟨Or.inl rfl, le_refl a, by simp⟩
  | cons e rest ih =>
    obtain ⟨hat, hle, hall⟩ := ih (max a e.timestamp)
    rw [List.foldl_cons]
    refine ⟨?_, (le_max_left _ _).trans hle, ?_⟩
    · rcases hat with h | ⟨e', he', h⟩
      · rcases max_cases a e.timestamp with ⟨hm, _⟩ | ⟨hm, _⟩
        · exact Or.inl (h.trans hm)
        · exact Or.inr ⟨e, List.mem_cons_self _ _, h.trans hm⟩
      · exact Or.inr ⟨e', List.mem_cons_of_mem _ he', h⟩
    · intro e' he'
      rcases List.mem_cons.mp he' with h | h
      · subst h
        exact (le_max_right _ _).trans hle
      · exact hall e' h

/-- Claim C6 (amended): provided every processed event has a positive
timestamp, `firstLogAt` is the minimum and `mostRecentLogAt` the maximum
timestamp over all processed events; with a 0-timestamp event the min
tracking treats its accumulator as unset and can report a non-minimal value. -/
theorem C6_first_most_recent_min_max (logs : List LogMessage) (hne : logs ≠ [])
    (hpos : ∀ e ∈ logs, 0 < e.timestamp) :
    ((∃ e ∈ logs, (extractMetadataFromLogs logs).firstLogAt = e.timestamp) ∧
        ∀ e ∈ logs, (extractMetadataFromLogs logs).firstLogAt ≤ e.timestamp) ∧
      (∃ e ∈ logs, (extractMetadataFromLogs logs).mostRecentLogAt = e.timestamp) ∧
      ∀ e ∈ logs, e.timestamp ≤ (extractMetadataFromLogs logs).mostRecentLogAt := by
  match logs, hne with
  | e :: rest, _ =>
    have hfirst : (extractMetadataFromLogs (e :: rest)).firstLogAt =
        rest.foldl (fun acc x => min acc x.timestamp) e.timestamp := by
      show ((e :: rest).foldl processLog EMPTY_RUN_METADATA).firstLogAt = _
      rw [List.foldl_cons]
      have he : (processLog EMPTY_RUN_METADATA e).firstLogAt = e.timestamp := by
        rw [processLog_firstLogAt]
        simp [EMPTY_RUN_METADATA]
      rw [foldl_firstLogAt_pos rest _ (he ▸ hpos e (List.mem_cons_self _ _))
          (fun x hx => hpos x (List.mem_cons_of_mem _ hx)), he]
    have hmost : (extractMetadataFromLogs (e :: rest)).mostRecentLogAt =
        rest.foldl (fun acc x => max acc x.timestamp) e.timestamp := by
      show ((e :: rest).foldl processLog EMPTY_RUN_METADATA).mostRecentLogAt = _
      rw [List.foldl_cons, foldl_mostRecentLogAt, processLog_mostRecentLogAt]
      rw [show EMPTY_RUN_METADATA.mostRecentLogAt = 0 from rfl,
        max_eq_right (le_of_lt (hpos e (List.mem_cons_self _ _)))]
    obtain ⟨hat1, hle1, hall1⟩ := foldl_min_spec rest e.timestamp
    obtain ⟨hat2, hle2, hall2⟩ := foldl_max_spec rest e.timestamp
    rw [hfirst, hmost]
    refine ⟨⟨?_, ?_⟩, ?_, ?_⟩
    · rcases hat1 with h | ⟨e', he', h⟩
      · exact ⟨e, List.mem_cons_self _ _, h⟩
      · exact ⟨e', List.mem_cons_of_mem _ he', h⟩
    · intro e' he'
      rcases List.mem_cons.mp he' with h | h
      · subst h
        exact hle1
      · exact hall1 e' h
    · rcases hat2 with h | ⟨e', he', h⟩
      · exact ⟨e, List.mem_cons_self _ _, h⟩
      · exact ⟨e', List.mem_cons_of_mem _ he', h⟩
    · intro e' he'
      rcases List.mem_cons.mp he' with h | h
      · subst h
        exact hle2
      · exact hall2 e' h

/-- Witness for the amended C6 on `[e@3, e@1]`: firstLogAt is attained and a
lower bound, mostRecentLogAt attained and an upper bound. -/
theorem C6_first_most_recent_min_max_witness :
    ((∃ e ∈ [otherMsg 3, otherMsg 1],
          (extractMetadataFromLogs [otherMsg 3, otherMsg 1]).firstLogAt = e.timestamp) ∧
        ∀ e ∈ [otherMsg 3, otherMsg 1],
          (extractMetadataFromLogs [otherMsg 3, otherMsg 1]).firstLogAt ≤ e.timestamp) ∧
      (∃ e ∈ [otherMsg 3, otherMsg 1],
          (extractMetadataFromLogs [otherMsg 3, otherMsg 1]).mostRecentLogAt = e.timestamp) ∧
      ∀ e ∈ [otherMsg 3, otherMsg 1],
        (e.timestamp ≤ (extractMetadataFromLogs [otherMsg 3, otherMsg 1]).mostRecentLogAt) :=
  C6_first_most_recent_min_max [otherMsg 3, otherMsg 1] (by decide) (by decide)

/-! ### Infrastructure: step-map projections of the sections -/

theorem updateTimes_steps (m : IRunMetadataDict) (t : Int) :
    (updateTimes m t).steps = m.steps :=
  rfl

theorem applyGlobalMarkers_steps (m : IRunMetadataDict) (log : LogMessage) :
    (applyGlobalMarkers m log).steps = m.steps := by
  unfold applyGlobalMarkers
  dsimp only
  repeat' split
  all_goals rfl

theorem applyLogCapture_steps (m : IRunMetadataDict) (log : LogMessage) :
    (applyLogCapture m log).steps = m.steps := by
  unfold applyLogCapture
  split <;> rfl

theorem applyRunEvents_steps (m : IRunMetadataDict) (log : LogMessage) :
    (applyRunEvents m log).steps =
      if isRunTerminal log.typename then
        fun k =>
          (m.steps k).map fun step =>
            if step.state = .RUNNING then upsertState step log.timestamp .UNKNOWN else step
      else m.steps := by
  unfold applyRunEvents
  dsimp only
  split <;> split <;> rfl

theorem applyMarkerToStep_fields (log : LogMessage) (ts : Int) (s : IStepMetadata) :
    (applyMarkerToStep log ts s).transitions = s.transitions ∧
      (applyMarkerToStep log ts s).state = s.state ∧
      (applyMarkerToStep log ts s).attempts = s.attempts ∧
      (applyMarkerToStep log ts s).start = s.start ∧
      (applyMarkerToStep log ts s).end_ = s.end_ := by
  unfold applyMarkerToStep
  dsimp only
  repeat' split
  all_goals exact ⟨rfl, rfl, rfl, rfl, rfl⟩

/-! ### Infrastructure for C3: a per-step well-formedness invariant -/

/-- Step records reachable under in-order delivery: nonempty transitions,
sorted by time, bounded by `b`, and `state` equal to the last transition's
state. -/
def StepOk (b : Int) (s : IStepMetadata) : Prop :=
  s.transitions ≠ [] ∧
    s.transitions.Pairwise (fun x y => x.time ≤ y.time) ∧
    (∀ t ∈ s.transitions, t.time ≤ b) ∧
    ∃ t, s.transitions.getLast? = some t ∧ s.state = t.state

def StepInv (b : Int) (m : IRunMetadataDict) : Prop :=
  ∀ k s, m.steps k = some s → StepOk b s

theorem StepOk.mono {b b' : Int} {s : IStepMetadata} (hbb : b ≤ b') (h : StepOk b s) :
    StepOk b' s :=
  ⟨h.1, h.2.1, fun t ht => (h.2.2.1 t ht).trans hbb, h.2.2.2⟩

theorem StepOk.upsert {b : Int} {s : IStepMetadata} (h : StepOk b s) (T : Int)
    (st : IStepState) (hbT : b ≤ T) : StepOk T (upsertState s T st) := by
  obtain ⟨-, hsort, hbound, -⟩ := h
  refine ⟨by simp [upsertState], ?_, ?_, ?_⟩
  · rw [upsertState]
    dsimp only
    rw [List.pairwise_append]
    exact ⟨hsort, List.pairwise_singleton _ _,
      fun a ha t' ht' => by
        rw [List.mem_singleton.mp ht']
        exact (hbound a ha).trans hbT⟩
  · intro t ht
    rw [upsertState] at ht
    dsimp only at ht
    rcases List.mem_append.mp ht with h | h
    · exact (hbound t h).trans hbT
    · rw [List.mem_singleton.mp h]
  · exact ⟨{ state := st, time := T }, by simp [upsertState], rfl⟩

theorem StepOk.ofNewStep (T : Int) : StepOk T (newStep T) :=
  ⟨by simp [newStep], by simp [newStep], by simp [newStep],
    ⟨{ state := .PREPARING, time := T }, by simp [newStep], rfl⟩⟩

theorem applyRunEvents_StepInv {b : Int} {m : IRunMetadataDict} {log : LogMessage}
    (hinv : StepInv b m) (hb : b ≤ log.timestamp) :
    StepInv log.timestamp (applyRunEvents m log) := by
  intro k s hs
  rw [applyRunEvents_steps] at hs
  by_cases hterm : isRunTerminal log.typename
  · rw [if_pos hterm] at hs
    obtain ⟨s0, hs0, hmap⟩ := Option.map_eq_some'.mp hs
    by_cases hrun : s0.state = .RUNNING
    · rw [if_pos hrun] at hmap
      exact hmap ▸ (hinv k s0 hs0).upsert _ _ hb
    · rw [if_neg hrun] at hmap
      exact hmap ▸ (hinv k s0 hs0).mono hb
  · rw [if_neg hterm] at hs
    exact (hinv k s hs).mono hb

theorem StepOk.ofMarker {b : Int} {log : LogMessage} {ts : Int} {s : IStepMetadata}
    (h : StepOk b s) : StepOk b (applyMarkerToStep log ts s) := by
  obtain ⟨h1, h2, h3, h4⟩ := h
  obtain ⟨ht, hst, -, -, -⟩ := applyMarkerToStep_fields log ts s
  rw [StepOk, ht, hst]
  exact ⟨h1, h2, h3, h4⟩

theorem setStep_StepInv {b : Int} {m : IRunMetadataDict} (hinv : StepInv b m)
    {key : String} {s' : IStepMetadata} (hok : StepOk b s') :
    StepInv b (setStep m key s') := by
  intro k s hs
  rw [setStep] at hs
  dsimp only at hs
  by_cases hk : k = key
  · rw [if_pos hk] at hs
    cases hs
    exact hok
  · rw [if_neg hk] at hs
    exact hinv k s hs

theorem applyStepEvent_StepInv {m : IRunMetadataDict} {log : LogMessage}
    (hinv : StepInv log.timestamp m) :
    StepInv (log.timestamp + 1) (applyStepEvent m log) := by
  have hinv' : StepInv (log.timestamp + 1) m := fun k s h => (hinv k s h).mono (by omega)
  unfold applyStepEvent
  rcases hkey : log.stepKey with _ | stepKey
  · exact hinv'
  · dsimp only
    have hbase :
        StepOk log.timestamp
          (applyMarkerToStep log log.timestamp
            ((m.steps stepKey).getD (newStep log.timestamp))) := by
      rcases hm : m.steps stepKey with _ | s0
      · exact (StepOk.ofNewStep _).ofMarker
      · exact (hinv stepKey s0 hm).ofMarker
    cases htype : log.typename
    case ExecutionStepStartEvent =>
      exact setStep_StepInv hinv' ((hbase.upsert _ _ le_rfl).mono (by omega))
    case ExecutionStepSuccessEvent =>
      exact setStep_StepInv hinv' ((hbase.upsert _ _ le_rfl).mono (by omega))
    case ExecutionStepSkippedEvent =>
      exact setStep_StepInv hinv' ((hbase.upsert _ _ le_rfl).mono (by omega))
    case ExecutionStepFailureEvent =>
      exact setStep_StepInv hinv' ((hbase.upsert _ _ le_rfl).mono (by omega))
    case ExecutionStepUpForRetryEvent =>
      exact setStep_StepInv hinv' ((hbase.upsert _ _ le_rfl).upsert _ _ (by omega))
    case ExecutionStepRestartEvent =>
      exact setStep_StepInv hinv' ((hbase.upsert _ _ le_rfl).mono (by omega))
    case ObjectStoreOperationEvent op =>
      dsimp only
      split
      · exact hinv'
      · exact setStep_StepInv hinv' (hbase.mono (by omega))
    all_goals exact setStep_StepInv hinv' (hbase.mono (by omega))

theorem processLog_StepInv {b : Int} {m : IRunMetadataDict} {log : LogMessage}
    (hinv : StepInv b m) (hb : b ≤ log.timestamp) :
    StepInv (log.timestamp + 1) (processLog m log) := by
  unfold processLog
  apply applyStepEvent_StepInv
  intro k s hs
  rw [applyLogCapture_steps, applyGlobalMarkers_steps] at hs
  exact
    applyRunEvents_StepInv
      (fun k' s' h' => hinv k' s' (by rwa [updateTimes_steps] at h')) hb k s hs

theorem foldl_StepInv (logs : List LogMessage) (m : IRunMetadataDict) (b : Int)
    (hinv : StepInv b m) (hall : ∀ e ∈ logs, b ≤ e.timestamp)
    (hinc : logs.Pairwise fun a b => a.timestamp < b.timestamp) :
    ∃ b', StepInv b' (logs.foldl processLog m) := by
  induction logs generalizing m b with
  | nil => exact ⟨b, hinv⟩
  | cons e rest ih =>
    rw [List.foldl_cons]
    rw [List.pairwise_cons] at hinc
    exact
      ih (processLog m e) (e.timestamp + 1)
        (processLog_StepInv hinv (hall e (List.mem_cons_self _ _)))
        (fun e' he' => by
          have := hinc.1 e' he'
          omega)
        hinc.2

/-- Claim C3 (amended): when the events arrive in strictly increasing
timestamp order, every step's final `state` equals the state of the last
element of its time-sorted `transitions`; under out-of-order arrival the
state instead tracks the last event processed, which need not be the latest
transition. -/
theorem C3_state_matches_last_transition (logs : List LogMessage)
    (hinc : logs.Pairwise fun a b => a.timestamp < b.timestamp)
    (k : String) (s : IStepMetadata)
    (hs : (extractMetadataFromLogs logs).steps k = some s) :
    ∃ t, s.transitions.getLast? = some t ∧ s.state = t.state := by
  obtain ⟨s0, hs0, hpost⟩ :
      ∃ s0, (extractMetadataFromLogsRaw logs).steps k = some s0 ∧ s = postProcessStep s0 := by
    unfold extractMetadataFromLogs at hs
    dsimp only at hs
    obtain ⟨s0, h1, h2⟩ := Option.map_eq_some'.mp hs
    exact ⟨s0, h1, h2.symm⟩
  have hok : ∃ b', StepOk b' s0 := by
    cases logs with
    | nil => exact Option.noConfusion hs0
    | cons e rest =>
      obtain ⟨b', hb'⟩ :=
        foldl_StepInv (e :: rest) EMPTY_RUN_METADATA e.timestamp
          (fun _ _ h => Option.noConfusion h)
          (fun e' he' => by
            rcases List.mem_cons.mp he' with h | h
            · rw [h]
            · have := (List.pairwise_cons.mp hinc).1 e' h
              omega)
          hinc
      exact ⟨b', hb' k s0 hs0⟩
  obtain ⟨b', -, hsorted, -, t, hlast, hstate⟩ := hok
  have hss : sortTransitions s0.transitions = s0.transitions :=
    List.Sorted.insertionSort_eq hsorted
  refine ⟨t, ?_, ?_⟩
  · rw [hpost]
    show (sortTransitions s0.transitions).getLast? = some t
    rw [hss]
    exact hlast
  · rw [hpost]
    exact hstate

/-- Witness for the amended C3 on the in-order input
`[start(stepA,@0), success(stepA,@10)]`. -/
theorem C3_state_matches_last_transition_witness :
    ∃ t,
      ({ state := .SUCCEEDED
         start := some 0
         end_ := some 10
         transitions :=
           [{ state := .PREPARING, time := 0 }, { state := .RUNNING, time := 0 },
             { state := .SUCCEEDED, time := 10 }]
         attempts := [{ start := some 0, end_ := some 10, exitState := some .SUCCEEDED }]
         markers := [] } : IStepMetadata).transitions.getLast? = some t ∧
        ({ state := .SUCCEEDED
           start := some 0
           end_ := some 10
           transitions :=
             [{ state := .PREPARING, time := 0 }, { state := .RUNNING, time := 0 },
               { state := .SUCCEEDED, time := 10 }]
           attempts := [{ start := some 0, end_ := some 10, exitState := some .SUCCEEDED }]
           markers := [] } : IStepMetadata).state = t.state :=
  C3_state_matches_last_transition [startMsg "stepA" 0, successMsg "stepA" 10] (by decide)
    "stepA"
    { state := .SUCCEEDED
      start := some 0
      end_ := some 10
      transitions :=
        [{ state := .PREPARING, time := 0 }, { state := .RUNNING, time := 0 },
          { state := .SUCCEEDED, time := 10 }]
      attempts := [{ start := some 0, end_ := some 10, exitState := some .SUCCEEDED }]
      markers := [] }
    (by decide)

/-! ### Infrastructure for C2: effect of late extension events on a step -/

/-- Two optional step records agreeing on every attempt-relevant field
(markers may differ). -/
def CoreSame (o1 o2 : Option IStepMetadata) : Prop :=
  (o1 = none ∧ o2 = none) ∨
    ∃ m1 m2,
      o1 = some m1 ∧ o2 = some m2 ∧ m1.state = m2.state ∧ m1.start = m2.start ∧
        m1.end_ = m2.end_ ∧ m1.transitions = m2.transitions ∧ m1.attempts = m2.attempts

/-- The record holds a transition strictly later than `B`. -/
def HasLate (B : Int) (o : Option IStepMetadata) : Prop :=
  ∃ m, o = some m ∧ ∃ t ∈ m.transitions, B < t.time

theorem CoreSame.rfl (o : Option IStepMetadata) : CoreSame o o := by
  cases o with
  | none => exact Or.inl ⟨Eq.refl _, Eq.refl _⟩
  | some m =>
    exact Or.inr ⟨m, m, Eq.refl _, Eq.refl _, Eq.refl _, Eq.refl _, Eq.refl _, Eq.refl _,
      Eq.refl _⟩

theorem CoreSame.trans {a b c : Option IStepMetadata} (h1 : CoreSame a b)
    (h2 : CoreSame b c) : CoreSame a c := by
  rcases h1 with ⟨ha, hb⟩ | ⟨m1, m2, ha, hb, f1, f2, f3, f4, f5⟩
  · rcases h2 with ⟨-, hc⟩ | ⟨m2', m3, hb', -⟩
    · exact Or.inl ⟨ha, hc⟩
    · rw [hb] at hb'
      cases hb'
  · rcases h2 with ⟨hb', -⟩ | ⟨m2', m3, hb', hc, g1, g2, g3, g4, g5⟩
    · rw [hb] at hb'
      cases hb'
    · rw [hb] at hb'
      cases hb'
      exact Or.inr ⟨m1, m3, ha, hc, f1.trans g1, f2.trans g2, f3.trans g3, f4.trans g4,
        f5.trans g5⟩

theorem HasLate.of_coreSame {B : Int} {a b : Option IStepMetadata} (h : CoreSame a b)
    (hb : HasLate B b) : HasLate B a := by
  obtain ⟨m, hm, t, ht, hlt⟩ := hb
  rcases h with ⟨-, hb'⟩ | ⟨m1, m2, ha, hb', -, -, -, f4, -⟩
  · rw [hm] at hb'
    cases hb'
  · rw [hm] at hb'
    cases hb'
    exact ⟨m1, ha, t, f4 ▸ ht, hlt⟩

theorem applyRunEvents_late {B : Int} {m : IRunMetadataDict} {log : LogMessage}
    (hB : B < log.timestamp) (k : String) :
    CoreSame ((applyRunEvents m log).steps k) (m.steps k) ∨
      HasLate B ((applyRunEvents m log).steps k) := by
  rw [applyRunEvents_steps]
  by_cases hterm : isRunTerminal log.typename
  · rw [if_pos hterm]
    rcases hm : m.steps k with _ | s0
    · exact Or.inl (Or.inl ⟨Eq.refl _, Eq.refl _⟩)
    · by_cases hrun : s0.state = .RUNNING
      · rw [Option.map_some', if_pos hrun]
        exact Or.inr ⟨_, Eq.refl _, { state := .UNKNOWN, time := log.timestamp },
          by simp [upsertState], hB⟩
      · rw [Option.map_some', if_neg hrun]
        exact Or.inl (CoreSame.rfl _)
  · rw [if_neg hterm]
    exact Or.inl (CoreSame.rfl _)

theorem applyStepEvent_late {B : Int} {m : IRunMetadataDict} {log : LogMessage}
    (hB : B < log.timestamp) (k : String) :
    CoreSame ((applyStepEvent m log).steps k) (m.steps k) ∨
      HasLate B ((applyStepEvent m log).steps k) := by
  unfold applyStepEvent
  rcases hkey : log.stepKey with _ | stepKey
  · exact Or.inl (CoreSame.rfl _)
  · dsimp only
    by_cases hk : k = stepKey
    case neg =>
      -- a different step's record is never touched
      have hset : ∀ s', (setStep m stepKey s').steps k = m.steps k := fun s' => by
        rw [setStep]
        dsimp only
        rw [if_neg hk]
      cases htype : log.typename
      case ObjectStoreOperationEvent op =>
        dsimp only
        split
        · exact Or.inl (CoreSame.rfl _)
        · rw [hset]
          exact Or.inl (CoreSame.rfl _)
      all_goals
        rw [hset]
        exact Or.inl (CoreSame.rfl _)
    case pos =>
      subst hk
      have hsetStep :
          ∀ s', (setStep m k s').steps k = some s' := fun s' => by
        rw [setStep]
        dsimp only
        rw [if_pos (Eq.refl k)]
      -- the base step: either the untouched old record or a fresh one at ts
      have hbaseCase :
          CoreSame
              (some
                (applyMarkerToStep log log.timestamp
                  ((m.steps k).getD (newStep log.timestamp))))
              (m.steps k) ∨
            HasLate B
              (some
                (applyMarkerToStep log log.timestamp
                  ((m.steps k).getD (newStep log.timestamp)))) := by
        rcases hm : m.steps k with _ | s0
        · refine Or.inr ⟨_, Eq.refl _, { state := .PREPARING, time := log.timestamp }, ?_, hB⟩
          rw [(applyMarkerToStep_fields log log.timestamp _).1]
          simp [newStep]
        · obtain ⟨f1, f2, f3, f4, f5⟩ := applyMarkerToStep_fields log log.timestamp s0
          exact Or.inl (Or.inr ⟨_, s0, Eq.refl _, Eq.refl _, f2, f4, f5, f1, f3⟩)
      have hupsert :
          ∀ (base : IStepMetadata) (st : IStepState) (T : Int), B < T →
            ∀ s', s'.transitions = (upsertState base T st).transitions →
              HasLate B (some s') := by
        intro base st T hT s' hs'
        refine ⟨s', Eq.refl _, { state := st, time := T }, ?_, hT⟩
        rw [hs']
        simp [upsertState]
      cases htype : log.typename
      case ExecutionStepStartEvent =>
        rw [hsetStep]
        exact Or.inr (hupsert _ .RUNNING _ hB _ (Eq.refl _))
      case ExecutionStepSuccessEvent =>
        rw [hsetStep]
        exact Or.inr (hupsert _ .SUCCEEDED _ hB _ (Eq.refl _))
      case ExecutionStepSkippedEvent =>
        rw [hsetStep]
        exact Or.inr (hupsert _ .SKIPPED _ hB _ (Eq.refl _))
      case ExecutionStepFailureEvent =>
        rw [hsetStep]
        exact Or.inr (hupsert _ .FAILED _ hB _ (Eq.refl _))
      case ExecutionStepUpForRetryEvent =>
        rw [hsetStep]
        exact Or.inr (hupsert _ .PREPARING (log.timestamp + 1) (by omega) _ (Eq.refl _))
      case ExecutionStepRestartEvent =>
        rw [hsetStep]
        exact Or.inr (hupsert _ .RUNNING _ hB _ (Eq.refl _))
      case ObjectStoreOperationEvent op =>
        dsimp only
        split
        · exact Or.inl (CoreSame.rfl _)
        · rw [hsetStep]
          exact hbaseCase
      all_goals
        rw [hsetStep]
        exact hbaseCase

theorem processLog_late {B : Int} {m : IRunMetadataDict} {log : LogMessage}
    (hB : B < log.timestamp) (k : String) :
    CoreSame ((processLog m log).steps k) (m.steps k) ∨
      HasLate B ((processLog m log).steps k) := by
  unfold processLog
  have h2 :=
    @applyStepEvent_late B
      (applyLogCapture
        (applyGlobalMarkers (applyRunEvents (updateTimes m log.timestamp) log) log) log)
      log hB k
  rw [applyLogCapture_steps, applyGlobalMarkers_steps] at h2
  have h1 := @applyRunEvents_late B (updateTimes m log.timestamp) log hB k
  rw [updateTimes_steps] at h1
  rcases h2 with h2 | h2
  · rcases h1 with h1 | h1
    · exact Or.inl (h2.trans h1)
    · exact Or.inr (HasLate.of_coreSame h2 h1)
  · exact Or.inr h2

theorem foldl_processLog_late (ext : List LogMessage) (m : IRunMetadataDict) (B : Int)
    (hB : ∀ e ∈ ext, B < e.timestamp) (k : String) :
    CoreSame ((ext.foldl processLog m).steps k) (m.steps k) ∨
      HasLate B ((ext.foldl processLog m).steps k) := by
  induction ext generalizing m with
  | nil => exact Or.inl (CoreSame.rfl _)
  | cons e rest ih =>
    rw [List.foldl_cons]
    have h1 := @processLog_late B m e (hB e (List.mem_cons_self _ _)) k
    have h2 := ih (processLog m e) fun e' he' => hB e' (List.mem_cons_of_mem _ he')
    rcases h2 with h2 | h2
    · rcases h1 with h1 | h1
      · exact Or.inl (h2.trans h1)
      · exact Or.inr (HasLate.of_coreSame h2 h1)
    · exact Or.inr h2

theorem postProcessStep_state (s : IStepMetadata) : (postProcessStep s).state = s.state :=
  rfl

theorem postProcessStep_start (s : IStepMetadata) : (postProcessStep s).start = s.start :=
  rfl

theorem postProcessStep_end (s : IStepMetadata) : (postProcessStep s).end_ = s.end_ :=
  rfl

theorem postProcessStep_transitions (s : IStepMetadata) :
    (postProcessStep s).transitions = sortTransitions s.transitions :=
  rfl

theorem postProcessStep_attempts (s : IStepMetadata) :
    (postProcessStep s).attempts = s.attempts ++ deriveAttempts (sortTransitions s.transitions) :=
  rfl

/-- Claim C2 (amended): feeding `[e1..en]` and later `[e1..en] ++ ext` yields,
for every step all of whose transitions in the extended model are at
timestamps ≤ timestamp(en), the same `state`, `start`, `end` and attempt list
— provided every extension event has timestamp strictly greater than
timestamp(en). (Without that proviso a late-arriving extension event with an
earlier timestamp can change such a step, see the counterexample.) -/
theorem C2_monotonic_growth (l ext : List LogMessage) (en : LogMessage)
    (_hlast : l.getLast? = some en)
    (hext : ∀ e ∈ ext, en.timestamp < e.timestamp)
    (k : String) (s' : IStepMetadata)
    (hs' : (extractMetadataFromLogs (l ++ ext)).steps k = some s')
    (hbound : ∀ t ∈ s'.transitions, t.time ≤ en.timestamp) :
    ∃ s, (extractMetadataFromLogs l).steps k = some s ∧
      s.state = s'.state ∧ s.start = s'.start ∧ s.end_ = s'.end_ ∧
      s.attempts = s'.attempts := by
  obtain ⟨s0', hs0', hpost'⟩ :
      ∃ s0', (extractMetadataFromLogsRaw (l ++ ext)).steps k = some s0' ∧
        s' = postProcessStep s0' := by
    unfold extractMetadataFromLogs at hs'
    dsimp only at hs'
    obtain ⟨s0', h1, h2⟩ := Option.map_eq_some'.mp hs'
    exact ⟨s0', h1, h2.symm⟩
  have hraw : extractMetadataFromLogsRaw (l ++ ext) =
      ext.foldl processLog (extractMetadataFromLogsRaw l) := by
    unfold extractMetadataFromLogsRaw
    rw [List.foldl_append]
  rcases foldl_processLog_late ext (extractMetadataFromLogsRaw l) en.timestamp hext k with
    hcs | hlate
  · rw [← hraw] at hcs
    rcases hcs with ⟨hnone, -⟩ | ⟨m1, m2, h1, h2, f1, f2, f3, f4, f5⟩
    · rw [hs0'] at hnone
      cases hnone
    · rw [hs0'] at h1
      cases h1
      refine ⟨postProcessStep m2, ?_, ?_, ?_, ?_, ?_⟩
      · unfold extractMetadataFromLogs
        dsimp only
        rw [h2]
        rfl
      · rw [hpost', postProcessStep_state, postProcessStep_state]
        exact f1.symm
      · rw [hpost', postProcessStep_start, postProcessStep_start]
        exact f2.symm
      · rw [hpost', postProcessStep_end, postProcessStep_end]
        exact f3.symm
      · rw [hpost', postProcessStep_attempts, postProcessStep_attempts, f4, f5]
  · rw [← hraw] at hlate
    obtain ⟨mm, hmm, t, htmem, hlt⟩ := hlate
    rw [hs0'] at hmm
    cases hmm
    have htm : t ∈ s'.transitions := by
      rw [hpost', postProcessStep_transitions]
      exact ((List.perm_insertionSort _ _).mem_iff).mpr htmem
    exact absurd (hbound t htm) (by omega)

/-- Witness for the amended C2: first batch `[skipped(y,@3), start(x,@5)]`,
extension `[success(x,@10)]`; step y has all transitions ≤ 5 in the extended
model and keeps its state, start, end and attempts. -/
theorem C2_monotonic_growth_witness :
    ∃ s,
      (extractMetadataFromLogs [skippedMsg "y" 3, startMsg "x" 5]).steps "y" = some s ∧
        s.state =
          ({ state := .SKIPPED, start := none, end_ := none
             transitions :=
               [{ state := .PREPARING, time := 3 }, { state := .SKIPPED, time := 3 }]
             attempts := [], markers := [] } : IStepMetadata).state ∧
        s.start =
          ({ state := .SKIPPED, start := none, end_ := none
             transitions :=
               [{ state := .PREPARING, time := 3 }, { state := .SKIPPED, time := 3 }]
             attempts := [], markers := [] } : IStepMetadata).start ∧
        s.end_ =
          ({ state := .SKIPPED, start := none, end_ := none
             transitions :=
               [{ state := .PREPARING, time := 3 }, { state := .SKIPPED, time := 3 }]
             attempts := [], markers := [] } : IStepMetadata).end_ ∧
        s.attempts =
          ({ state := .SKIPPED, start := none, end_ := none
             transitions :=
               [{ state := .PREPARING, time := 3 }, { state := .SKIPPED, time := 3 }]
             attempts := [], markers := [] } : IStepMetadata).attempts :=
  C2_monotonic_growth [skippedMsg "y" 3, startMsg "x" 5] [successMsg "x" 10]
    (startMsg "x" 5) (by decide) (by decide) "y"
    { state := .SKIPPED, start := none, end_ := none
      transitions := [{ state := .PREPARING, time := 3 }, { state := .SKIPPED, time := 3 }]
      attempts := [], markers := [] }
    (by decide) (by decide)

/-! ### Infrastructure for C1: plain step events and their transition trace -/

/-- A step-scoped event of one of the five kinds whose handler emits exactly
one transition (start / success / skipped / failure / restart). -/
def isPlainStep (e : LogMessage) : Bool :=
  e.stepKey.isSome &&
    (e.typename == .ExecutionStepStartEvent || e.typename == .ExecutionStepSuccessEvent ||
      e.typename == .ExecutionStepSkippedEvent || e.typename == .ExecutionStepFailureEvent ||
      e.typename == .ExecutionStepRestartEvent)

/-- The single transition a plain step event pushes. -/
def transOf (e : LogMessage) : ITransition :=
  match e.typename with
  | .ExecutionStepStartEvent => { state := .RUNNING, time := e.timestamp }
  | .ExecutionStepSuccessEvent => { state := .SUCCEEDED, time := e.timestamp }
  | .ExecutionStepSkippedEvent => { state := .SKIPPED, time := e.timestamp }
  | .ExecutionStepFailureEvent => { state := .FAILED, time := e.timestamp }
  | .ExecutionStepRestartEvent => { state := .RUNNING, time := e.timestamp }
  | _ => { state := .PREPARING, time := e.timestamp }

def filterKey (k : String) (logs : List LogMessage) : List LogMessage :=
  logs.filter fun e => e.stepKey == some k

/-- The raw (arrival-order) transition list accumulated for one step. -/
def extendTrans : Option (List ITransition) → List LogMessage → Option (List ITransition)
  | o, [] => o
  | none, e :: es =>
    extendTrans (some [{ state := .PREPARING, time := e.timestamp }, transOf e]) es
  | some ts, e :: es => extendTrans (some (ts ++ [transOf e])) es

theorem transOf_time (e : LogMessage) : (transOf e).time = e.timestamp := by
  unfold transOf
  split <;> rfl

theorem processLog_plain_steps (m : IRunMetadataDict) (e : LogMessage)
    (he : isPlainStep e = true) (k : String) :
    ((processLog m e).steps k).map (fun s => (s.transitions, s.attempts)) =
      if e.stepKey == some k then
        some
          ((match (m.steps k).map (fun s => s.transitions) with
            | none => [{ state := .PREPARING, time := e.timestamp }, transOf e]
            | some ts => ts ++ [transOf e]),
            ([] : List IStepAttempt))
      else ((m.steps k).map fun s => (s.transitions, s.attempts)) := by
  rw [isPlainStep, Bool.and_eq_true, Option.isSome_iff_exists] at he
  obtain ⟨⟨key, hkey⟩, htype5⟩ := he
  have hglobal :
      ∀ m' : IRunMetadataDict, (applyGlobalMarkers m' e).steps = m'.steps :=
    fun m' => applyGlobalMarkers_steps m' e
  simp only [Bool.or_eq_true, beq_iff_eq] at htype5
  unfold processLog
  have hrun : applyRunEvents (updateTimes m e.timestamp) e = updateTimes m e.timestamp := by
    unfold applyRunEvents
    rcases htype5 with ((((h | h) | h) | h) | h) <;>
      rw [h] <;> rfl
  have hgm :
      applyGlobalMarkers (updateTimes m e.timestamp) e = updateTimes m e.timestamp := by
    unfold applyGlobalMarkers
    rw [hkey]
    rfl
  have hlc :
      applyLogCapture (updateTimes m e.timestamp) e = updateTimes m e.timestamp := by
    unfold applyLogCapture
    rcases htype5 with ((((h | h) | h) | h) | h) <;> rw [h]
  rw [hrun, hgm, hlc]
  unfold applyStepEvent
  rw [hkey]
  dsimp only
  have hmark :
      ∀ s, applyMarkerToStep e e.timestamp s = s := by
    intro s
    unfold applyMarkerToStep refineMarkerEvent
    rcases htype5 with ((((h | h) | h) | h) | h) <;> rw [h] <;> rfl
  rw [updateTimes_steps, hmark]
  rcases htype5 with ((((h | h) | h) | h) | h) <;> rw [h] <;>
    (by_cases hk : k = key
     · subst hk
       rcases hms : m.steps k with _ | s0 <;>
         simp [setStep, hms, hkey, upsertState, newStep, transOf, h, updateTimes_steps]
     · simp [setStep, hk, hkey, updateTimes_steps, Ne.symm hk])

theorem extendTrans_some (l : List LogMessage) (ts : List ITransition) :
    extendTrans (some ts) l = some (ts ++ l.map transOf) := by
  induction l generalizing ts with
  | nil => simp [extendTrans]
  | cons e es ih =>
    show extendTrans (some (ts ++ [transOf e])) es = _
    rw [ih]
    simp

theorem foldl_plain_pairs (logs : List LogMessage)
    (hplain : ∀ e ∈ logs, isPlainStep e = true) (m : IRunMetadataDict) (k : String) :
    ((logs.foldl processLog m).steps k).map (fun s => (s.transitions, s.attempts)) =
      if filterKey k logs = [] then
        (m.steps k).map fun s => (s.transitions, s.attempts)
      else
        (extendTrans ((m.steps k).map fun s => s.transitions) (filterKey k logs)).map
          fun ts => (ts, ([] : List IStepAttempt)) := by
  induction logs generalizing m with
  | nil => rw [if_pos (show filterKey k ([] : List LogMessage) = [] from rfl)]; rfl
  | cons e rest ih =>
    rw [List.foldl_cons]
    have hme := processLog_plain_steps m e (hplain e (List.mem_cons_self _ _)) k
    have ihm := ih (fun e' he' => hplain e' (List.mem_cons_of_mem _ he')) (processLog m e)
    have hfc : filterKey k (e :: rest) =
        if (e.stepKey == some k) then e :: filterKey k rest else filterKey k rest := by
      simp only [filterKey, List.filter_cons]
    by_cases hek : (e.stepKey == some k) = true
    · rw [if_pos hek] at hme
      rw [hfc, if_pos hek]
      have htrans :
          ((processLog m e).steps k).map (fun s => s.transitions) =
            some
              (match (m.steps k).map (fun s => s.transitions) with
                | none => [{ state := .PREPARING, time := e.timestamp }, transOf e]
                | some ts => ts ++ [transOf e]) := by
        have h' := congrArg
          (Option.map fun p : List ITransition × List IStepAttempt => p.1) hme
        rw [Option.map_map, Option.map_some'] at h'
        exact h'
      rw [ihm, htrans]
      rcases ho : (m.steps k).map (fun s => s.transitions) with _ | ts
      · rw [ho] at hme htrans ⊢
        by_cases hre : filterKey k rest = []
        · rw [if_pos hre, if_neg (List.cons_ne_nil _ _), hre]
          rw [hme]
          rfl
        · rw [if_neg hre, if_neg (List.cons_ne_nil _ _)]
          rfl
      · rw [ho] at hme htrans ⊢
        by_cases hre : filterKey k rest = []
        · rw [if_pos hre, if_neg (List.cons_ne_nil _ _), hre]
          rw [hme]
          rfl
        · rw [if_neg hre, if_neg (List.cons_ne_nil _ _)]
          rfl
    · rw [if_neg hek] at hme
      rw [hfc, if_neg hek]
      have htrans :
          ((processLog m e).steps k).map (fun s => s.transitions) =
            (m.steps k).map fun s => s.transitions := by
        have := congrArg
          (Option.map fun p : List ITransition × List IStepAttempt => p.1) hme
        rw [Option.map_map, Option.map_map] at this
        exact this
      rw [ihm, htrans, hme]

theorem sortTransitions_cons_min (p : ITransition) (L : List ITransition)
    (h : ∀ x ∈ L, p.time ≤ x.time) :
    sortTransitions (p :: L) = p :: sortTransitions L := by
  unfold sortTransitions
  show
    List.orderedInsert (fun a b : ITransition => a.time ≤ b.time) p
        (List.insertionSort (fun a b : ITransition => a.time ≤ b.time) L) =
      p :: List.insertionSort (fun a b : ITransition => a.time ≤ b.time) L
  have hmem :
      ∀ x ∈ List.insertionSort (fun a b : ITransition => a.time ≤ b.time) L,
        p.time ≤ x.time :=
    fun x hx => h x ((List.perm_insertionSort _ _).mem_iff.mp hx)
  cases hM : List.insertionSort (fun a b : ITransition => a.time ≤ b.time) L with
  | nil => rfl
  | cons b l =>
    exact
      List.orderedInsert_of_le (fun a b : ITransition => a.time ≤ b.time) l
        (hmem b (by rw [hM]; exact List.mem_cons_self b l))

theorem sortTransitions_perm_nodup_eq (L1 L2 : List ITransition)
    (hp : L1.Perm L2) (hnd : (L1.map fun t => t.time).Nodup) :
    sortTransitions L1 = sortTransitions L2 := by
  haveI htot : IsTotal ITransition (fun a b => a.time ≤ b.time) :=
    ⟨fun a b => le_total _ _⟩
  haveI htr : IsTrans ITransition (fun a b => a.time ≤ b.time) :=
    ⟨fun _ _ _ => le_trans⟩
  haveI hanti : IsAntisymm ITransition (fun a b => a.time < b.time) :=
    ⟨fun a b h1 h2 => absurd h1 (lt_asymm h2)⟩
  have hs1 : (sortTransitions L1).Pairwise (fun a b => a.time ≤ b.time) :=
    List.sorted_insertionSort _ L1
  have hs2 : (sortTransitions L2).Pairwise (fun a b => a.time ≤ b.time) :=
    List.sorted_insertionSort _ L2
  have hperm : (sortTransitions L1).Perm (sortTransitions L2) :=
    (List.perm_insertionSort _ _).trans (hp.trans (List.perm_insertionSort _ _).symm)
  have hnd1 : ((sortTransitions L1).map fun t => t.time).Nodup :=
    (((List.perm_insertionSort _ L1).map fun t => t.time).nodup_iff).mpr hnd
  have hnd2 : ((sortTransitions L2).map fun t => t.time).Nodup :=
    ((hperm.map fun t => t.time).nodup_iff).mp hnd1
  have hlt1 : (sortTransitions L1).Pairwise (fun a b => a.time < b.time) :=
    (hs1.and (List.pairwise_map.mp hnd1)).imp fun h => lt_of_le_of_ne h.1 h.2
  have hlt2 : (sortTransitions L2).Pairwise (fun a b => a.time < b.time) :=
    (hs2.and (List.pairwise_map.mp hnd2)).imp fun h => lt_of_le_of_ne h.1 h.2
  exact List.eq_of_perm_of_sorted hperm hlt1 hlt2

/-- Whether the first-arriving event of step `k` carries the minimal timestamp
among `k`'s events. -/
def minFirstB (logs : List LogMessage) (k : String) : Bool :=
  match filterKey k logs with
  | [] => true
  | e :: es => es.all fun e' => e.timestamp ≤ e'.timestamp

/-- Every step's first-arriving event has that step's minimal timestamp. -/
def MinFirst (logs : List LogMessage) : Prop :=
  ∀ k ∈ logs.filterMap fun e => e.stepKey, minFirstB logs k = true

theorem minFirst_head {logs : List LogMessage} {k : String} {eh : LogMessage}
    {es : List LogMessage} (hmin : MinFirst logs)
    (hevs : filterKey k logs = eh :: es) :
    ∀ e' ∈ es, eh.timestamp ≤ e'.timestamp := by
  have hmem : eh ∈ filterKey k logs := by
    rw [hevs]
    exact List.mem_cons_self _ _
  rw [filterKey] at hmem
  have hmem' := List.mem_filter.mp hmem
  have hk : k ∈ logs.filterMap fun e => e.stepKey :=
    List.mem_filterMap.mpr ⟨eh, hmem'.1, by rw [beq_iff_eq] at hmem'; exact hmem'.2⟩
  have := hmin k hk
  rw [minFirstB, hevs] at this
  simpa [List.all_eq_true, decide_eq_true_eq] using this

/-- Claim C1 (amended): the per-step sorted `transitions` and derived
`attempts` are identical for two arrival orders of the same event set,
provided all events are plain step events (start / success / skipped /
failure / restart), all timestamps are distinct, and in both orders each
step's first-arriving event carries that step's minimal timestamp. (Without
these provisos reordering changes the result: the lazily created PREPARING
transition takes the timestamp of whichever event arrives first, run-terminal
forcing depends on the states current at its arrival, and equal-timestamp
transitions keep arrival order under the stable sort.) -/
theorem C1_reorder_invariance (logsA logsB : List LogMessage)
    (hperm : logsA.Perm logsB)
    (hplain : ∀ e ∈ logsA, isPlainStep e = true)
    (hnd : (logsA.map fun e => e.timestamp).Nodup)
    (hminA : MinFirst logsA) (hminB : MinFirst logsB) (k : String) :
    ((extractMetadataFromLogs logsA).steps k).map (fun s => (s.transitions, s.attempts)) =
      ((extractMetadataFromLogs logsB).steps k).map
        fun s => (s.transitions, s.attempts) := by
  have hplainB : ∀ e ∈ logsB, isPlainStep e = true := fun e he =>
    hplain e (hperm.mem_iff.mpr he)
  have hfoldA := foldl_plain_pairs logsA hplain EMPTY_RUN_METADATA k
  have hfoldB := foldl_plain_pairs logsB hplainB EMPTY_RUN_METADATA k
  have hpermF : (filterKey k logsA).Perm (filterKey k logsB) :=
    hperm.filter _
  by_cases hA : filterKey k logsA = []
  · have hB : filterKey k logsB = [] := by
      rw [hA] at hpermF
      exact hpermF.symm.eq_nil
    rw [if_pos hA] at hfoldA
    rw [if_pos hB] at hfoldB
    have hnA : (extractMetadataFromLogsRaw logsA).steps k = none :=
      Option.map_eq_none'.mp hfoldA
    have hnB : (extractMetadataFromLogsRaw logsB).steps k = none :=
      Option.map_eq_none'.mp hfoldB
    show
      ((((extractMetadataFromLogsRaw logsA).steps k).map postProcessStep).map
          fun s => (s.transitions, s.attempts)) =
        (((extractMetadataFromLogsRaw logsB).steps k).map postProcessStep).map
          fun s => (s.transitions, s.attempts)
    rw [hnA, hnB]
  · have hB : filterKey k logsB ≠ [] := by
      intro hB0
      rw [hB0] at hpermF
      exact hA hpermF.eq_nil
    obtain ⟨eA, esA, hevsA⟩ := List.exists_cons_of_ne_nil hA
    obtain ⟨eB, esB, hevsB⟩ := List.exists_cons_of_ne_nil hB
    -- raw transition lists
    rw [if_neg hA, hevsA] at hfoldA
    rw [if_neg hB, hevsB] at hfoldB
    have hextA :
        extendTrans ((EMPTY_RUN_METADATA.steps k).map fun s => s.transitions)
            (eA :: esA) =
          some ({ state := .PREPARING, time := eA.timestamp } ::
            (eA :: esA).map transOf) := by
      show extendTrans
          (some [{ state := .PREPARING, time := eA.timestamp }, transOf eA]) esA = _
      rw [extendTrans_some]
      rfl
    have hextB :
        extendTrans ((EMPTY_RUN_METADATA.steps k).map fun s => s.transitions)
            (eB :: esB) =
          some ({ state := .PREPARING, time := eB.timestamp } ::
            (eB :: esB).map transOf) := by
      show extendTrans
          (some [{ state := .PREPARING, time := eB.timestamp }, transOf eB]) esB = _
      rw [extendTrans_some]
      rfl
    rw [hextA] at hfoldA
    rw [hextB] at hfoldB
    obtain ⟨s0A, hs0A, hpairA⟩ := Option.map_eq_some'.mp hfoldA
    obtain ⟨s0B, hs0B, hpairB⟩ := Option.map_eq_some'.mp hfoldB
    rw [Prod.mk.injEq] at hpairA hpairB
    -- the two head timestamps agree
    have hmA := minFirst_head hminA hevsA
    have hmB := minFirst_head hminB hevsB
    have heqts : eA.timestamp = eB.timestamp := by
      have h1 : eA ∈ eB :: esB := by
        rw [← hevsB]
        exact hpermF.mem_iff.mp (by rw [hevsA]; exact List.mem_cons_self _ _)
      have h2 : eB ∈ eA :: esA := by
        rw [← hevsA]
        exact hpermF.mem_iff.mpr (by rw [hevsB]; exact List.mem_cons_self _ _)
      rcases List.mem_cons.mp h1 with h1 | h1
      · rw [h1]
      · rcases List.mem_cons.mp h2 with h2 | h2
        · rw [h2]
        · exact le_antisymm (hmA eB h2) (hmB eA h1)
    -- the sorted transition lists agree
    have hsorted :
        sortTransitions ({ state := .PREPARING, time := eA.timestamp } ::
            (eA :: esA).map transOf) =
          sortTransitions ({ state := .PREPARING, time := eB.timestamp } ::
            (eB :: esB).map transOf) := by
      have hboundA :
          ∀ x ∈ (eA :: esA).map transOf,
            ({ state := .PREPARING, time := eA.timestamp } : ITransition).time ≤ x.time := by
        intro x hx
        obtain ⟨e', he', hx'⟩ := List.mem_map.mp hx
        rw [← hx', transOf_time]
        rcases List.mem_cons.mp he' with h | h
        · rw [h]
        · exact hmA e' h
      have hboundB :
          ∀ x ∈ (eB :: esB).map transOf,
            ({ state := .PREPARING, time := eB.timestamp } : ITransition).time ≤ x.time := by
        intro x hx
        obtain ⟨e', he', hx'⟩ := List.mem_map.mp hx
        rw [← hx', transOf_time]
        rcases List.mem_cons.mp he' with h | h
        · rw [h]
        · exact hmB e' h
      rw [sortTransitions_cons_min _ _ hboundA, sortTransitions_cons_min _ _ hboundB, heqts]
      have hndA : (((eA :: esA).map transOf).map fun t => t.time).Nodup := by
        rw [List.map_map]
        have hfun : ((fun t : ITransition => t.time) ∘ transOf) =
            fun e : LogMessage => e.timestamp := funext fun e => transOf_time e
        rw [hfun]
        have hsub : (eA :: esA).Sublist logsA := by
          rw [← hevsA]
          exact List.filter_sublist logsA
        exact hnd.sublist (hsub.map _)
      have hpermT : ((eA :: esA).map transOf).Perm ((eB :: esB).map transOf) := by
        rw [← hevsA, ← hevsB]
        exact hpermF.map _
      rw [sortTransitions_perm_nodup_eq _ _ hpermT hndA]
    -- assemble
    show
      ((((extractMetadataFromLogsRaw logsA).steps k).map postProcessStep).map
          fun s => (s.transitions, s.attempts)) =
        (((extractMetadataFromLogsRaw logsB).steps k).map postProcessStep).map
          fun s => (s.transitions, s.attempts)
    have hs0A' : (extractMetadataFromLogsRaw logsA).steps k = some s0A := hs0A
    have hs0B' : (extractMetadataFromLogsRaw logsB).steps k = some s0B := hs0B
    rw [hs0A', hs0B']
    show
      some ((postProcessStep s0A).transitions, (postProcessStep s0A).attempts) =
        some ((postProcessStep s0B).transitions, (postProcessStep s0B).attempts)
    rw [postProcessStep_transitions, postProcessStep_attempts,
      postProcessStep_transitions, postProcessStep_attempts,
      hpairA.1, hpairA.2, hpairB.1, hpairB.2, hsorted]

/-- Witness for the amended C1: two one-event steps, arrival orders swapped. -/
theorem C1_reorder_invariance_witness :
    ((extractMetadataFromLogs [startMsg "A" 1, startMsg "B" 2]).steps "A").map
        (fun s => (s.transitions, s.attempts)) =
      ((extractMetadataFromLogs [startMsg "B" 2, startMsg "A" 1]).steps "A").map
        fun s => (s.transitions, s.attempts) :=
  C1_reorder_invariance [startMsg "A" 1, startMsg "B" 2] [startMsg "B" 2, startMsg "A" 1]
    (List.Perm.swap _ _ _) (by decide) (by decide) (by unfold MinFirst; decide)
    (by unfold MinFirst; decide) "A"
